import Mathlib

/-!
Verification development for the bulk-verification reconciliation worker
(`src/functions/verification-worker/index.ts`).  Strings are embedded as
lists of characters; each definition mirrors one function or code block of
the source, with the source lines noted in its doc comment.
-/

namespace VerifWorker

/-- Strings of the embedded program are lists of characters. -/
abbrev Str := List Char

/-- Whitespace characters recognised by the model of JS `trim` /
`Number` (restricted to the ASCII whitespace the worker's inputs use). -/
def isJsWs (c : Char) : Bool :=
  c == ' ' || c == '\t' || c == '\n' || c == '\r'

/-- Model of JS `String.prototype.trim`: drop leading and trailing
whitespace. -/
def jsTrim (s : Str) : Str :=
  ((s.dropWhile isJsWs).reverse.dropWhile isJsWs).reverse

/-- Model of JS `String.prototype.toLowerCase` (ASCII letters). -/
def jsToLower (s : Str) : Str :=
  s.map Char.toLower

/-- Model of the JS `a || b` idiom on strings: the empty string is falsy. -/
def jsOrStr (a b : Str) : Str :=
  if a.isEmpty then b else a

/-- Auxiliary for `splitOnChar`; the accumulator holds the current field
reversed. -/
def splitOnCharAux (c : Char) : Str → Str → List Str
  | [], acc => [acc.reverse]
  | x :: xs, acc =>
    if x == c then acc.reverse :: splitOnCharAux c xs []
    else splitOnCharAux c xs (x :: acc)

/-- Model of JS `String.prototype.split(c)` for a one-character separator
(used as `text.split('|')`, index.ts line 32). -/
def splitOnChar (c : Char) (s : Str) : List Str :=
  splitOnCharAux c s []

/-- Auxiliary for `splitLines`; splits on `\n` or `\r\n` like the regex
`/\r?\n/` (a lone `\r` is ordinary text). -/
def splitLinesAux : Str → Str → List Str
  | [], acc => [acc.reverse]
  | '\r' :: '\n' :: rest, acc => acc.reverse :: splitLinesAux rest []
  | '\n' :: rest, acc => acc.reverse :: splitLinesAux rest []
  | x :: rest, acc => splitLinesAux rest (x :: acc)

/-- Model of `text.split(/\r?\n/)` (index.ts line 60). -/
def splitLines (s : Str) : List Str :=
  splitLinesAux s []

/-- Model of `l.indexOf(',')` plus the two `slice` calls (index.ts lines
66-69): `some (before, after)` splits at the first occurrence of `c`,
`none` means `c` does not occur. -/
def splitFirst (c : Char) : Str → Option (Str × Str)
  | [] => none
  | x :: xs =>
    if x == c then some ([], xs)
    else (splitFirst c xs).map (fun p => (x :: p.1, p.2))

/-- Model of JS `String.prototype.startsWith` (index.ts line 65). -/
def jsStartsWith : Str → Str → Bool
  | _, [] => true
  | [], _ :: _ => false
  | c :: cs, p :: ps => c == p && jsStartsWith cs ps

/-- Model of JS `String.prototype.includes` for a string argument
(index.ts line 133): does `pat` occur as a contiguous substring of `s`? -/
def hasSub (pat : Str) : Str → Bool
  | [] => jsStartsWith [] pat
  | s@(_ :: rest) => jsStartsWith s pat || hasSub pat rest

/-- Auxiliary for `jsSetDedup`: `seen` holds the elements already kept. -/
def jsSetDedupAux (seen : List Str) : List Str → List Str
  | [] => []
  | x :: xs =>
    if seen.contains x then jsSetDedupAux seen xs
    else x :: jsSetDedupAux (x :: seen) xs

/-- Model of `Array.from(new Set(list))` (index.ts lines 147, 150, 151):
keep the first occurrence of each element, in order. -/
def jsSetDedup (l : List Str) : List Str :=
  jsSetDedupAux [] l

/-- A JS number as this worker can produce one: either NaN or a natural
number.  Models the ECMAScript `Number(string)` coercion on the worker's
restricted input domain (empty / whitespace-only strings and decimal digit
strings of counter size; signs, fractions, exponents and hex notation do
not occur in the provider's counters and are outside the modelled domain,
where every such string is NaN). -/
inductive JsNum where
  | nan : JsNum
  | num : Nat → JsNum
deriving DecidableEq, Repr

/-- Value of a string of decimal digits. -/
def digitsToNat (s : Str) : Nat :=
  s.foldl (fun n c => 10 * n + (c.toNat - 48)) 0

/-- Model of `Number(s)` (index.ts lines 41-43): whitespace-only strings
coerce to 0, digit strings to their value, and anything else (on the
modelled domain) to NaN. -/
def jsNumber (s : Str) : JsNum :=
  let t := jsTrim s
  if t.isEmpty then JsNum.num 0
  else if t.all Char.isDigit then JsNum.num (digitsToNat t)
  else JsNum.nan

/-- The parsed provider status descriptor (index.ts lines 4-14). -/
structure FileInfo where
  file_id : Str
  filename : Str
  unique : JsNum
  lines : JsNum
  lines_processed : JsNum
  status : Str
  timestamp : Str
  link1 : Option Str
  link2 : Option Str
deriving DecidableEq, Repr

/-- Pure core of `fetchFileInfo` (index.ts lines 30-48): trim the response
body, split it on `|`, refuse fewer than 7 fields, otherwise read the
fields positionally; `none` models the `null` return. -/
def parseFileInfo (text : Str) : Option FileInfo :=
  let parts := splitOnChar '|' (jsTrim text)
  if parts.length < 7 then none
  else some
    { file_id := parts.getD 0 []
      filename := parts.getD 1 []
      unique := jsNumber (jsOrStr (parts.getD 2 []) ['0'])
      lines := jsNumber (jsOrStr (parts.getD 3 []) ['0'])
      lines_processed := jsNumber (jsOrStr (parts.getD 4 []) ['0'])
      status := jsOrStr (parts.getD 5 []) []
      timestamp := jsOrStr (parts.getD 6 []) []
      link1 := parts[7]?
      link2 := parts[8]? }

/-- One iteration of the line loop of `downloadCsvPairs` (index.ts lines
62-72): `some (category, email)` when the line is kept, `none` when it is
discarded.  Every line yields a value: no line can raise an error. -/
def csvLinePair (line : Str) : Option (Str × Str) :=
  let l := jsTrim line
  if l.isEmpty then none
  else if jsStartsWith (jsToLower l) ("elv result".data) then none
  else
    match splitFirst ',' l with
    | none => none
    | some (pre, post) =>
      let result := jsToLower (jsTrim pre)
      let email := jsToLower (jsTrim post)
      if email.contains '@' then some (result, email) else none

/-- Pure core of `downloadCsvPairs` (index.ts lines 59-73): split the body
into lines and keep the parsed `(category, email)` pairs in order. -/
def parseCsvPairs (body : Str) : List (Str × Str) :=
  (splitLines body).filterMap csvLinePair

/-- The fixed BAD label set (index.ts line 148). -/
def badLabels : List Str :=
  [("invalid_syntax".data), ("invalid_mx".data), ("email_disabled".data),
   ("dead_server".data), ("disposable".data), ("spamtrap".data)]

/-- The fixed UNRESOLVED label set (index.ts line 149). -/
def unkLabels : List Str :=
  [("unknown".data), ("ok_for_all".data), ("antispam_system".data),
   ("smtp_protocol".data)]

/-- GOOD bucket (index.ts line 147): deduplicated emails of the pairs of
result file 1 whose category is the literal `ok`. -/
def goodSetOf (pairs : List (Str × Str)) : List Str :=
  jsSetDedup ((pairs.filter (fun p => p.1 == ("ok".data))).map (·.2))

/-- BAD bucket (index.ts line 150): deduplicated emails of the pairs of
result file 2 whose category is in the BAD label set. -/
def badSetOf (pairs : List (Str × Str)) : List Str :=
  jsSetDedup ((pairs.filter (fun p => badLabels.contains p.1)).map (·.2))

/-- UNRESOLVED bucket (index.ts line 151): deduplicated emails of the
pairs of result file 2 whose category is in the UNRESOLVED label set. -/
def unkSetOf (pairs : List (Str × Str)) : List Str :=
  jsSetDedup ((pairs.filter (fun p => unkLabels.contains p.1)).map (·.2))

/-- The TS union type of the `status` argument of `updateLeadsByEmail`
(index.ts line 188), together with the initial `unverified` state of a
lead (spec data model, never written by this worker). -/
inductive VStatus where
  | unverified : VStatus
  | verified_ok : VStatus
  | verified_bad : VStatus
  | verified_unknown : VStatus
deriving DecidableEq, Repr

/-- The `known` set (index.ts line 218): every classified email,
lowercased. -/
def knownEmails (okE badE unkE : List Str) : List Str :=
  (okE ++ badE ++ unkE).map jsToLower

/-- `remainingUnknownEmails` (index.ts line 219): uploaded emails not in
the known set. -/
def remainingUnknown (uploaded okE badE unkE : List Str) : List Str :=
  uploaded.filter (fun e => !((knownEmails okE badE unkE).contains e))

/-- The sequence of `updateLeadsByEmail` calls the reconciliation step
issues (index.ts lines 209-221): one instruction per target status, in
program order; the unaccounted-email instruction is issued only when the
batch's uploaded email list is non-empty (the `if (uploaded.length)`
guard, line 216). -/
def reconcileInstructions (okE badE unkE uploaded : List Str) :
    List (List Str × VStatus) :=
  [(okE, VStatus.verified_ok), (badE, VStatus.verified_bad),
   (unkE, VStatus.verified_unknown)] ++
  (if uploaded.isEmpty then []
   else [(remainingUnknown uploaded okE badE unkE, VStatus.verified_unknown)])

/-- One row of the `leads` table, restricted to the columns this worker
reads or writes. -/
structure Lead where
  id : Nat
  email : Str
  vstatus : VStatus
  checkedAt : Nat
deriving DecidableEq, Repr

/-- The `emailToIds` index (index.ts lines 176-185): ids of the leads with
a truthy (non-empty) email whose lowercased email is the key, in table
order. -/
def emailIdx (store : List Lead) (key : Str) : List Nat :=
  ((store.filter (fun l => !l.email.isEmpty)).filter
    (fun l => jsToLower l.email == key)).map (·.id)

/-- Effect of one `update ... in('id', ids)` statement on one lead row:
the row is rewritten exactly when its id is in the statement's id list. -/
def applyIf (ids : List Nat) (st : VStatus) (now : Nat) (l : Lead) : Lead :=
  if ids.contains l.id then { l with vstatus := st, checkedAt := now }
  else l

/-- One chunked update statement (index.ts lines 202-205): set
`verification_status` and `verification_checked_at` on every lead whose id
is in the chunk. -/
def updateByIds (ids : List Nat) (st : VStatus) (now : Nat)
    (store : List Lead) : List Lead :=
  store.map (applyIf ids st now)

/-- Consecutive slices of size `n` (the `for (let i = 0; ...; i += idChunk)`
loop, index.ts lines 199-201). -/
def chunksOf (n : Nat) (l : List α) : List (List α) :=
  if l.isEmpty ∨ n = 0 then []
  else l.take n :: chunksOf n (l.drop n)
termination_by l.length
decreasing_by
  simp only [List.isEmpty_iff, not_or] at *
  have hl : 0 < l.length := List.length_pos.mpr (by tauto)
  have hn : 0 < n := Nat.pos_of_ne_zero (by tauto)
  simpa [List.length_drop] using Nat.sub_lt hl hn

/-- The `allIds` accumulation (index.ts lines 189-194): ids of all leads
matching the given emails case-insensitively, through the pre-computed
index. -/
def leadTargets (idx : Str → List Nat) (emails : List Str) : List Nat :=
  emails.flatMap (fun e => idx (jsToLower e))

/-- `updateLeadsByEmail` (index.ts lines 188-207): collect the ids of all
leads matching the given emails case-insensitively through the
pre-computed index, return the store unchanged when there are none, and
otherwise apply the update in id chunks of 100. -/
def updateLeadsByEmail (idx : Str → List Nat) (emails : List Str)
    (st : VStatus) (now : Nat) (store : List Lead) : List Lead :=
  let allIds := leadTargets idx emails
  if allIds.isEmpty then store
  else (chunksOf 100 allIds).foldl (fun s c => updateByIds c st now s) store

/-- The reconciliation step's effect on the lead store (index.ts lines
163-225): build the email index from the fetched leads once, then apply
the GOOD, BAD, UNRESOLVED and (for a non-empty upload list) unaccounted
updates in order. -/
def reconcileApply (okE badE unkE uploadedRaw : List Str) (now : Nat)
    (store : List Lead) : List Lead :=
  let idx := emailIdx store
  let uploaded := uploadedRaw.map jsToLower
  let s1 := updateLeadsByEmail idx okE VStatus.verified_ok now store
  let s2 := updateLeadsByEmail idx badE VStatus.verified_bad now s1
  let s3 := updateLeadsByEmail idx unkE VStatus.verified_unknown now s2
  if uploaded.isEmpty then s3
  else
    updateLeadsByEmail idx (remainingUnknown uploaded okE badE unkE)
      VStatus.verified_unknown now s3

/-- The batch-completion write (index.ts lines 228-231): the `processed`
column is set to `true` regardless of its previous value. -/
def markProcessed (_ : Bool) : Bool :=
  true

/-- The completion predicate (index.ts lines 132-133): the lowercased
status text contains `complete`, `finish` or `ready`. -/
def isComplete (status : Str) : Bool :=
  let statusLower := jsToLower (jsOrStr status [])
  hasSub ("complete".data) statusLower || hasSub ("finish".data) statusLower ||
    hasSub ("ready".data) statusLower

/-- The fields of the per-poll batch-row update (index.ts lines 121-130),
capturing `link1: info.link1 || null` and `link2: info.link2 || null`. -/
structure Snapshot where
  status : Str
  linesProcessed : JsNum
  link1 : Option Str
  link2 : Option Str
deriving DecidableEq, Repr

/-- `x || null` on an optional string: an absent or empty link is stored
as null. -/
def jsLinkOrNull : Option Str → Option Str
  | none => none
  | some u => if u.isEmpty then none else some u

/-- The batch-row snapshot written for a parsed descriptor (index.ts
lines 121-130). -/
def snapOf (i : FileInfo) : Snapshot :=
  { status := i.status, linesProcessed := i.lines_processed,
    link1 := jsLinkOrNull i.link1, link2 := jsLinkOrNull i.link2 }

/-- What one loop iteration of the driver writes for one batch: whether
`checked_at` was touched, the optional status snapshot, the lead-store
update instructions issued, and whether `processed` was set to true. -/
structure TickEffects where
  checkedAtSet : Bool
  snapshot : Option Snapshot
  leadInstructions : List (List Str × VStatus)
  processedSet : Bool
deriving DecidableEq, Repr

/-- The environment one batch is processed against: the provider's status
response body (`none` models an HTTP-level failure), the batch's `emails`
column, and the download network (`none` models a non-ok response for a
result-file URL). -/
structure BatchInput where
  pollResponse : Option Str
  emails : List Str
  net : Str → Option Str

/-- The descriptor the driver sees for a batch: `fetchFileInfo` returns
null on HTTP failure and on a malformed status line (index.ts lines
16-53). -/
def infoOf (b : BatchInput) : Option FileInfo :=
  b.pollResponse.bind parseFileInfo

/-- `downloadCsvPairs` (index.ts lines 55-74): a missing or empty URL and
a failed download both yield no pairs. -/
def downloadedPairs (net : Str → Option Str) (url : Option Str) :
    List (Str × Str) :=
  match url with
  | none => []
  | some u =>
    if u.isEmpty then []
    else
      match net u with
      | none => []
      | some body => parseCsvPairs body

/-- The effects of the poll-failure branch (index.ts lines 111-118): only
`checked_at` is written. -/
def pendingNoInfo : TickEffects :=
  { checkedAtSet := true, snapshot := none, leadInstructions := [],
    processedSet := false }

/-- One driver loop iteration for one batch (index.ts lines 106-231),
as the effects it issues.  Poll failure: touch `checked_at` only and move
on.  Descriptor but not complete: persist the snapshot and move on.
Complete: download both result files, classify, issue the reconciliation
instructions and set `processed`. -/
def processOne (b : BatchInput) : TickEffects :=
  match infoOf b with
  | none => pendingNoInfo
  | some i =>
    if isComplete i.status then
      let okPairs := downloadedPairs b.net i.link1
      let allPairs := downloadedPairs b.net i.link2
      let okEmails := goodSetOf okPairs
      let badEmails := badSetOf allPairs
      let unknownEmails := unkSetOf allPairs
      { checkedAtSet := true, snapshot := some (snapOf i),
        leadInstructions :=
          reconcileInstructions okEmails badEmails unknownEmails
            (b.emails.map jsToLower),
        processedSet := true }
    else
      { checkedAtSet := true, snapshot := some (snapOf i),
        leadInstructions := [], processedSet := false }

/-- The driver's batch loop (index.ts lines 106-235): batches are handled
sequentially and independently; each one yields its effects. -/
def runTick (batches : List BatchInput) : List TickEffects :=
  batches.map processOne

/-- Which of the awaited steps after classification fail by throwing
(index.ts lines 163-225): the campaign-lead fetch (which re-throws its
error, line 172) and the four `updateLeadsByEmail` calls. -/
structure StepFails where
  fetchLeads : Bool
  updGood : Bool
  updBad : Bool
  updUnres : Bool
  updRest : Bool
deriving DecidableEq, Repr

/-- A step that either succeeds or throws. -/
def stepRun (failed : Bool) : Except Unit Unit :=
  if failed then Except.error () else Except.ok ()

/-- The unaccounted-email update runs inside its own `try`/`catch`
(index.ts lines 214-225): a throw there is logged and swallowed. -/
def restStep (failed : Bool) : Except Unit Unit :=
  match stepRun failed with
  | Except.error _ => Except.ok ()
  | Except.ok _ => Except.ok ()

/-- Control flow from the campaign-lead fetch to just before the
`processed := true` write (index.ts lines 163-225), under the per-batch
`try`/`catch` (lines 107, 232-234). -/
def afterClassification (f : StepFails) : Except Unit Unit := do
  stepRun f.fetchLeads
  stepRun f.updGood
  stepRun f.updBad
  stepRun f.updUnres
  restStep f.updRest

/-- Whether the tick reaches the `processed := true` write (index.ts lines
228-231) for a complete batch, given which steps throw: an uncaught throw
lands in the per-batch catch (lines 232-234), which skips the write. -/
def processedSetAfter (f : StepFails) : Bool :=
  match afterClassification f with
  | Except.ok _ => true
  | Except.error _ => false

/-! ### Library lemmas about the embedded string and set operations -/


theorem contains_iff_mem (l : List Str) (a : Str) : l.contains a = true ↔ a ∈ l := by
  simp [List.contains]

theorem mem_jsSetDedupAux (seen l : List Str) (e : Str) :
    e ∈ jsSetDedupAux seen l ↔ e ∈ l ∧ e ∉ seen := by
  induction l generalizing seen with
  | nil => simp [jsSetDedupAux]
  | cons x xs ih =>
    by_cases hx : seen.contains x = true
    · have hxs : x ∈ seen := (contains_iff_mem seen x).mp hx
      rw [jsSetDedupAux, if_pos hx, ih, List.mem_cons]
      constructor
      · rintro ⟨h1, h2⟩
        exact ⟨Or.inr h1, h2⟩
      · rintro ⟨h1 | h1, h2⟩
        · exact absurd (h1 ▸ hxs) h2
        · exact ⟨h1, h2⟩
    · have hxs : x ∉ seen := fun h => hx ((contains_iff_mem seen x).mpr h)
      rw [jsSetDedupAux, if_neg hx, List.mem_cons, List.mem_cons, ih, List.mem_cons]
      constructor
      · rintro (rfl | ⟨h1, h2⟩)
        · exact ⟨Or.inl rfl, hxs⟩
        · constructor
          · exact Or.inr h1
          · intro h
            exact h2 (Or.inr h)
      · rintro ⟨rfl | h1, h2⟩
        · exact Or.inl rfl
        · by_cases hex : e = x
          · exact Or.inl hex
          · exact Or.inr ⟨h1, fun h => by rcases h with h | h <;> [exact hex h; exact h2 h]⟩

theorem mem_jsSetDedup (l : List Str) (e : Str) : e ∈ jsSetDedup l ↔ e ∈ l := by
  simp [jsSetDedup, mem_jsSetDedupAux]

theorem nodup_jsSetDedupAux (seen l : List Str) : (jsSetDedupAux seen l).Nodup := by
  induction l generalizing seen with
  | nil => simp [jsSetDedupAux]
  | cons x xs ih =>
    by_cases hx : seen.contains x = true
    · rw [jsSetDedupAux, if_pos hx]
      exact ih seen
    · rw [jsSetDedupAux, if_neg hx, List.nodup_cons]
      refine ⟨fun h => ?_, ih (x :: seen)⟩
      exact ((mem_jsSetDedupAux _ _ _).mp h).2 (List.mem_cons_self x seen)

theorem nodup_jsSetDedup (l : List Str) : (jsSetDedup l).Nodup :=
  nodup_jsSetDedupAux [] l

theorem splitFirst_eq_none_iff (c : Char) (l : Str) :
    splitFirst c l = none ↔ c ∉ l := by
  induction l with
  | nil => simp [splitFirst]
  | cons x xs ih =>
    by_cases hx : x = c
    · subst hx; simp [splitFirst]
    · rw [splitFirst, if_neg (by simpa using hx), List.mem_cons]
      cases h : splitFirst c xs with
      | none =>
        simp only [Option.map_none', true_iff, h]
        push_neg
        exact ⟨fun hh => hx hh.symm, ih.mp h⟩
      | some p =>
        simp only [Option.map_some', h]
        constructor
        · intro hh; exact absurd hh (by simp)
        · intro hh
          exfalso
          have : splitFirst c xs = none := ih.mpr (fun hmem => hh (Or.inr hmem))
          rw [h] at this
          exact Option.noConfusion this

theorem splitFirst_eq_some_iff (c : Char) (l p q : Str) :
    splitFirst c l = some (p, q) ↔ l = p ++ c :: q ∧ c ∉ p := by
  induction l generalizing p with
  | nil => simp [splitFirst]
  | cons x xs ih =>
    by_cases hx : x = c
    · subst hx
      rw [splitFirst, if_pos (by simp)]
      constructor
      · intro h
        obtain ⟨rfl, rfl⟩ : p = [] ∧ q = xs := by
          constructor <;> [exact (Prod.mk.injEq _ _ _ _ ▸ Option.some.inj h).1.symm;
            exact ((Prod.mk.injEq _ _ _ _ ▸ Option.some.inj h).2).symm]
        simp
      · rintro ⟨heq, hnp⟩
        cases p with
        | nil =>
          obtain rfl : q = xs := by simpa using heq.symm
          rfl
        | cons y ys =>
          exfalso
          have hxy : x = y := by simpa using congrArg (fun t => t.headD x) heq
          exact hnp (hxy ▸ List.mem_cons_self y ys)
    · rw [splitFirst, if_neg (by simpa using hx)]
      constructor
      · intro h
        rcases Option.map_eq_some'.mp h with ⟨⟨p', q'⟩, hsome, heq⟩
        have hp : x :: p' = p := (Prod.mk.injEq _ _ _ _ ▸ heq).1
        have hq : q' = q := (Prod.mk.injEq _ _ _ _ ▸ heq).2
        subst hp; subst hq
        rcases (ih p').mp hsome with ⟨rfl, hnp⟩
        refine ⟨rfl, fun hmem => ?_⟩
        rcases List.mem_cons.mp hmem with h1 | h1
        · exact hx h1.symm
        · exact hnp h1
      · rintro ⟨heq, hnp⟩
        cases p with
        | nil =>
          exfalso
          exact hx (by simpa using congrArg (fun t => t.headD x) heq)
        | cons y ys =>
          have hxy : x = y := by simpa using congrArg (fun t => t.headD x) heq
          subst hxy
          have htail : xs = ys ++ c :: q := by simpa using congrArg List.tail heq
          have hys : c ∉ ys := fun h => hnp (List.mem_cons_of_mem _ h)
          rw [(ih ys).mpr ⟨htail, hys⟩]
          simp

theorem jsStartsWith_iff (s pat : Str) :
    jsStartsWith s pat = true ↔ ∃ rest, s = pat ++ rest := by
  induction pat generalizing s with
  | nil => simp [jsStartsWith]
  | cons p ps ih =>
    cases s with
    | nil => simp [jsStartsWith]
    | cons x xs =>
      simp only [jsStartsWith, Bool.and_eq_true, beq_iff_eq, ih, List.cons_append,
        List.cons.injEq]
      constructor
      · rintro ⟨rfl, rest, rfl⟩; exact ⟨rest, rfl, rfl⟩
      · rintro ⟨rest, rfl, rfl⟩; exact ⟨rfl, rest, rfl⟩

theorem hasSub_iff (pat s : Str) :
    hasSub pat s = true ↔ ∃ pre post, s = pre ++ pat ++ post := by
  induction s with
  | nil =>
    simp only [hasSub, jsStartsWith_iff]
    constructor
    · rintro ⟨rest, h⟩
      exact ⟨[], rest, by simpa using h⟩
    · rintro ⟨pre, post, h⟩
      have h' : pre ++ (pat ++ post) = [] := by simpa [List.append_assoc] using h.symm
      rcases List.append_eq_nil.mp h' with ⟨h1, h2⟩
      rcases List.append_eq_nil.mp h2 with ⟨h3, h4⟩
      exact ⟨post, by simp [h3, h4]⟩
  | cons x xs ih =>
    simp only [hasSub, Bool.or_eq_true, jsStartsWith_iff, ih]
    constructor
    · rintro (⟨rest, h⟩ | ⟨pre, post, h⟩)
      · exact ⟨[], rest, by simpa using h⟩
      · exact ⟨x :: pre, post, by simp [h]⟩
    · rintro ⟨pre, post, h⟩
      cases pre with
      | nil => exact Or.inl ⟨post, by simpa using h⟩
      | cons y ys =>
        right
        refine ⟨ys, post, ?_⟩
        simpa using congrArg List.tail h

theorem jsOrStr_nil (s : Str) : jsOrStr s [] = s := by
  by_cases h : s = []
  · simp [jsOrStr, h]
  · simp [jsOrStr, List.isEmpty_iff, h]



theorem applyIf_id (ids : List Nat) (st : VStatus) (now : Nat) (l : Lead) :
    (applyIf ids st now l).id = l.id := by
  unfold applyIf; split <;> rfl

theorem applyIf_email (ids : List Nat) (st : VStatus) (now : Nat) (l : Lead) :
    (applyIf ids st now l).email = l.email := by
  unfold applyIf; split <;> rfl

theorem applyIf_nil (st : VStatus) (now : Nat) (l : Lead) :
    applyIf [] st now l = l := by
  simp [applyIf]

theorem applyIf_comp (n : Nat) (ids : List Nat) (st : VStatus) (now : Nat) (l : Lead) :
    applyIf (ids.drop n) st now (applyIf (ids.take n) st now l) = applyIf ids st now l := by
  have hmem : l.id ∈ ids ↔ l.id ∈ ids.take n ∨ l.id ∈ ids.drop n := by
    conv_lhs => rw [← List.take_append_drop n ids]
    exact List.mem_append
  by_cases h1 : l.id ∈ ids.take n <;> by_cases h2 : l.id ∈ ids.drop n <;>
    simp [applyIf, List.contains, h1, h2, hmem]

theorem foldl_chunks (n : Nat) (hn : 0 < n) (st : VStatus) (now : Nat)
    (ids : List Nat) (store : List Lead) :
    (chunksOf n ids).foldl (fun s c => updateByIds c st now s) store =
      store.map (applyIf ids st now) := by
  induction ids using chunksOf.induct n generalizing store with
  | case1 ids hids =>
    rcases hids with hids | hids
    · rw [List.isEmpty_iff] at hids
      subst hids
      rw [chunksOf]
      simp [applyIf_nil, List.map_congr_left (fun l _ => (applyIf_nil st now l)), List.map_id']
    · omega
  | case2 ids hids ih =>
    rw [chunksOf, if_neg hids]
    rw [List.foldl_cons, ih (updateByIds (ids.take n) st now store)]
    rw [updateByIds, List.map_map]
    exact List.map_congr_left (fun l _ => applyIf_comp n ids st now l)

theorem updateLeadsByEmail_eq_map (idx : Str → List Nat) (emails : List Str)
    (st : VStatus) (now : Nat) (store : List Lead) :
    updateLeadsByEmail idx emails st now store =
      store.map (applyIf (leadTargets idx emails) st now) := by
  unfold updateLeadsByEmail
  by_cases h : (leadTargets idx emails).isEmpty = true
  · rw [List.isEmpty_iff] at h
    simp only [h, List.isEmpty_nil, if_true]
    symm
    calc List.map (applyIf [] st now) store
        = List.map (fun l => l) store :=
          List.map_congr_left (fun l _ => applyIf_nil st now l)
      _ = store := List.map_id' store
  · simp only [h, if_false]
    exact foldl_chunks 100 (by norm_num) st now _ store



/-- Per-lead effect of one reconciliation pass (the composition of the
four `updateLeadsByEmail` calls of index.ts lines 209-221, with the
unaccounted update guarded by a non-empty upload list). -/
def reconLead (idx : Str → List Nat) (okE badE unkE uploaded : List Str)
    (now : Nat) (l : Lead) : Lead :=
  applyIf
    (if uploaded.isEmpty then []
     else leadTargets idx (remainingUnknown uploaded okE badE unkE))
    VStatus.verified_unknown now
    (applyIf (leadTargets idx unkE) VStatus.verified_unknown now
      (applyIf (leadTargets idx badE) VStatus.verified_bad now
        (applyIf (leadTargets idx okE) VStatus.verified_ok now l)))

theorem reconcileApply_eq_map (okE badE unkE upl : List Str) (now : Nat)
    (store : List Lead) :
    reconcileApply okE badE unkE upl now store =
      store.map (reconLead (emailIdx store) okE badE unkE (upl.map jsToLower) now) := by
  unfold reconcileApply reconLead
  by_cases h : (upl.map jsToLower).isEmpty = true
  · simp only [h, if_true, updateLeadsByEmail_eq_map, List.map_map]
    refine List.map_congr_left (fun l _ => ?_)
    simp [Function.comp, applyIf_nil]
  · simp only [h, if_false, updateLeadsByEmail_eq_map, List.map_map]
    refine List.map_congr_left (fun l _ => ?_)
    simp [Function.comp]

theorem reconLead_id (idx : Str → List Nat) (okE badE unkE upl : List Str)
    (now : Nat) (l : Lead) :
    (reconLead idx okE badE unkE upl now l).id = l.id := by
  unfold reconLead
  simp [applyIf_id]

theorem reconLead_email (idx : Str → List Nat) (okE badE unkE upl : List Str)
    (now : Nat) (l : Lead) :
    (reconLead idx okE badE unkE upl now l).email = l.email := by
  unfold reconLead
  simp [applyIf_email]

theorem emailIdx_map (F : Lead → Lead) (hid : ∀ l, (F l).id = l.id)
    (hem : ∀ l, (F l).email = l.email) (store : List Lead) (key : Str) :
    emailIdx (store.map F) key = emailIdx store key := by
  unfold emailIdx
  rw [List.filter_map, List.filter_map, List.map_map]
  have hp : List.filter ((fun l => !l.email.isEmpty) ∘ F) store
      = List.filter (fun l => !l.email.isEmpty) store :=
    List.filter_congr (fun l _ => by simp [Function.comp, hem l])
  rw [hp]
  have hq : List.filter ((fun l => jsToLower l.email == key) ∘ F)
        (List.filter (fun l => !l.email.isEmpty) store)
      = List.filter (fun l => jsToLower l.email == key)
        (List.filter (fun l => !l.email.isEmpty) store) :=
    List.filter_congr (fun l _ => by simp [Function.comp, hem l])
  rw [hq]
  exact List.map_congr_left (fun l _ => by simp [Function.comp, hid l])



theorem fourApply_vstatus_stable (i1 i2 i3 i4 : List Nat) (n₁ n₂ : Nat) (l : Lead) :
    (applyIf i4 VStatus.verified_unknown n₂ (applyIf i3 VStatus.verified_unknown n₂
      (applyIf i2 VStatus.verified_bad n₂ (applyIf i1 VStatus.verified_ok n₂
        (applyIf i4 VStatus.verified_unknown n₁ (applyIf i3 VStatus.verified_unknown n₁
          (applyIf i2 VStatus.verified_bad n₁
            (applyIf i1 VStatus.verified_ok n₁ l)))))))).vstatus =
    (applyIf i4 VStatus.verified_unknown n₁ (applyIf i3 VStatus.verified_unknown n₁
      (applyIf i2 VStatus.verified_bad n₁
        (applyIf i1 VStatus.verified_ok n₁ l)))).vstatus := by
  by_cases h1 : l.id ∈ i1 <;> by_cases h2 : l.id ∈ i2 <;>
    by_cases h3 : l.id ∈ i3 <;> by_cases h4 : l.id ∈ i4 <;>
      simp [applyIf, List.contains, h1, h2, h3, h4]

theorem reconLead_vstatus_stable (idx : Str → List Nat)
    (okE badE unkE upl : List Str) (n₁ n₂ : Nat) (l : Lead) :
    (reconLead idx okE badE unkE upl n₂ (reconLead idx okE badE unkE upl n₁ l)).vstatus
      = (reconLead idx okE badE unkE upl n₁ l).vstatus := by
  unfold reconLead
  exact fourApply_vstatus_stable _ _ _ _ n₁ n₂ l

theorem reconcile_idempotent_core (store : List Lead)
    (okE badE unkE upl : List Str) (t₁ t₂ : Nat) :
    (reconcileApply okE badE unkE upl t₂ (reconcileApply okE badE unkE upl t₁ store)).map
        (fun l => (l.id, l.email, l.vstatus)) =
      (reconcileApply okE badE unkE upl t₁ store).map
        (fun l => (l.id, l.email, l.vstatus)) := by
  rw [reconcileApply_eq_map okE badE unkE upl t₁ store,
    reconcileApply_eq_map okE badE unkE upl t₂ _]
  have hidx :
      emailIdx (store.map (reconLead (emailIdx store) okE badE unkE
        (upl.map jsToLower) t₁)) = emailIdx store :=
    funext (fun key => emailIdx_map _ (reconLead_id _ _ _ _ _ _)
      (reconLead_email _ _ _ _ _ _) store key)
  rw [hidx]
  simp only [List.map_map]
  refine List.map_congr_left (fun l _ => ?_)
  simp [Function.comp, reconLead_id, reconLead_email, reconLead_vstatus_stable]



/-- GOOD bucket as the driver computes it (index.ts lines 145, 147): from
the file behind `link1` only. -/
def bucketsGood (b : BatchInput) (i : FileInfo) : List Str :=
  goodSetOf (downloadedPairs b.net i.link1)

/-- BAD bucket as the driver computes it (index.ts lines 146, 148, 150):
from the file behind `link2` only. -/
def bucketsBad (b : BatchInput) (i : FileInfo) : List Str :=
  badSetOf (downloadedPairs b.net i.link2)

/-- UNRESOLVED bucket as the driver computes it (index.ts lines 146, 149,
151): from the file behind `link2` only. -/
def bucketsUnk (b : BatchInput) (i : FileInfo) : List Str :=
  unkSetOf (downloadedPairs b.net i.link2)

theorem reconcileInstructions_spec (okE badE unkE uploaded : List Str) (e : Str)
    (he : e ∈ uploaded) :
    (okE, VStatus.verified_ok) ∈ reconcileInstructions okE badE unkE uploaded ∧
    (badE, VStatus.verified_bad) ∈ reconcileInstructions okE badE unkE uploaded ∧
    (unkE, VStatus.verified_unknown) ∈ reconcileInstructions okE badE unkE uploaded ∧
    (e ∉ knownEmails okE badE unkE →
      (remainingUnknown uploaded okE badE unkE, VStatus.verified_unknown) ∈
          reconcileInstructions okE badE unkE uploaded ∧
        e ∈ remainingUnknown uploaded okE badE unkE) ∧
    (∃ p ∈ reconcileInstructions okE badE unkE uploaded,
      p.2 ≠ VStatus.unverified ∧ (e ∈ p.1 ∨ ∃ bb ∈ p.1, jsToLower bb = e)) := by
  have hne : uploaded.isEmpty = false := by
    cases uploaded with
    | nil => cases he
    | cons y ys => rfl
  have hmem4 : (remainingUnknown uploaded okE badE unkE, VStatus.verified_unknown) ∈
      reconcileInstructions okE badE unkE uploaded := by
    simp [reconcileInstructions, hne]
  have hrem : e ∉ knownEmails okE badE unkE →
      e ∈ remainingUnknown uploaded okE badE unkE := by
    intro hk
    have hcf : (knownEmails okE badE unkE).contains e = false := by
      cases hcc : (knownEmails okE badE unkE).contains e with
      | false => rfl
      | true => exact absurd ((contains_iff_mem _ _).mp hcc) hk
    rw [remainingUnknown, List.mem_filter]
    exact ⟨he, by simp [hcf, hk]⟩
  refine ⟨by simp [reconcileInstructions], by simp [reconcileInstructions],
    by simp [reconcileInstructions], fun hk => ⟨hmem4, hrem hk⟩, ?_⟩
  by_cases hk : e ∈ knownEmails okE badE unkE
  · obtain ⟨bb, hbb, hlow⟩ := List.mem_map.mp hk
    rcases List.mem_append.mp hbb with hbb12 | hbb3
    · rcases List.mem_append.mp hbb12 with hbb1 | hbb2
      · exact ⟨(okE, VStatus.verified_ok), by simp [reconcileInstructions],
          by simp, Or.inr ⟨bb, hbb1, hlow⟩⟩
      · exact ⟨(badE, VStatus.verified_bad), by simp [reconcileInstructions],
          by simp, Or.inr ⟨bb, hbb2, hlow⟩⟩
    · exact ⟨(unkE, VStatus.verified_unknown), by simp [reconcileInstructions],
        by simp, Or.inr ⟨bb, hbb3, hlow⟩⟩
  · exact ⟨(remainingUnknown uploaded okE badE unkE, VStatus.verified_unknown),
      hmem4, by simp, Or.inl (hrem hk)⟩

/-- C1: once a batch polls complete, the reconciliation step issues a
terminal-status update instruction for the GOOD, BAD and UNRESOLVED sets,
issues the unaccounted-fallback instruction with `verified_unknown`, and
every submitted email is covered (case-insensitively) by at least one
issued instruction whose status is terminal — no submitted email is left
without an issued classification update. -/
theorem reconcile_covers_every_submitted_email (b : BatchInput) (i : FileInfo)
    (e : Str) (hinfo : infoOf b = some i) (hc : isComplete i.status = true)
    (he : e ∈ b.emails.map jsToLower) :
    (processOne b).leadInstructions =
      reconcileInstructions (bucketsGood b i) (bucketsBad b i) (bucketsUnk b i)
        (b.emails.map jsToLower) ∧
    (processOne b).processedSet = true ∧
    (bucketsGood b i, VStatus.verified_ok) ∈ (processOne b).leadInstructions ∧
    (bucketsBad b i, VStatus.verified_bad) ∈ (processOne b).leadInstructions ∧
    (bucketsUnk b i, VStatus.verified_unknown) ∈ (processOne b).leadInstructions ∧
    (e ∉ knownEmails (bucketsGood b i) (bucketsBad b i) (bucketsUnk b i) →
      (remainingUnknown (b.emails.map jsToLower) (bucketsGood b i) (bucketsBad b i)
          (bucketsUnk b i), VStatus.verified_unknown) ∈
          (processOne b).leadInstructions ∧
        e ∈ remainingUnknown (b.emails.map jsToLower) (bucketsGood b i)
          (bucketsBad b i) (bucketsUnk b i)) ∧
    (∃ p ∈ (processOne b).leadInstructions, p.2 ≠ VStatus.unverified ∧
      (e ∈ p.1 ∨ ∃ bb ∈ p.1, jsToLower bb = e)) := by
  have hinstr : (processOne b).leadInstructions =
      reconcileInstructions (bucketsGood b i) (bucketsBad b i) (bucketsUnk b i)
        (b.emails.map jsToLower) := by
    simp [processOne, hinfo, hc, bucketsGood, bucketsBad, bucketsUnk]
  have hps : (processOne b).processedSet = true := by
    simp [processOne, hinfo, hc]
  have h := reconcileInstructions_spec (bucketsGood b i) (bucketsBad b i)
    (bucketsUnk b i) (b.emails.map jsToLower) e he
  rw [hinstr]
  exact ⟨rfl, hps, h.1, h.2.1, h.2.2.1, h.2.2.2.1, h.2.2.2.2⟩



/-- Scenario B of the spec: two submitted emails, the provider reports
only `a@x.com` as GOOD. -/
def scenarioB : BatchInput :=
  { pollResponse :=
      some ("f1|list.csv|2|2|2|complete|2024-01-01|http://x/1|http://x/2".data)
    emails := [("a@x.com".data), ("c@x.com".data)]
    net := fun u =>
      if u = ("http://x/1".data) then some ("ok,a@x.com".data)
      else some [] }

/-- The descriptor scenario B's status line parses to. -/
def scenarioBInfo : FileInfo :=
  { file_id := ("f1".data), filename := ("list.csv".data),
    unique := JsNum.num 2, lines := JsNum.num 2, lines_processed := JsNum.num 2,
    status := ("complete".data), timestamp := ("2024-01-01".data),
    link1 := some ("http://x/1".data), link2 := some ("http://x/2".data) }

theorem reconcile_covers_every_submitted_email_witness :
    ∃ p ∈ (processOne scenarioB).leadInstructions,
      p.2 ≠ VStatus.unverified ∧
        ((("c@x.com".data) ∈ p.1) ∨ ∃ bb ∈ p.1, jsToLower bb = ("c@x.com".data)) :=
  (reconcile_covers_every_submitted_email scenarioB scenarioBInfo
    (("c@x.com".data)) (by decide) (by decide) (by decide)).2.2.2.2.2.2



/-- C4 counterexample: when only the unaccounted-email update throws, the
inner catch (index.ts lines 223-225) swallows the error and the batch is
still marked processed, contrary to the claim that any post-classification
throw leaves `processed=false`. -/
theorem unaccounted_throw_still_marks_processed :
    (StepFails.mk false false false false true).updRest = true ∧
    processedSetAfter (StepFails.mk false false false false true) = true := by
  exact ⟨rfl, rfl⟩

/-- C4 (amended): the batch is marked processed exactly when the lead
fetch and the GOOD/BAD/UNRESOLVED updates all succeed; a throw in the
unaccounted-email update is caught locally and does not prevent
`processed := true`. -/
theorem processed_iff_unguarded_steps_succeed (f : StepFails) :
    processedSetAfter f =
      (!f.fetchLeads && !f.updGood && !f.updBad && !f.updUnres) := by
  rcases f with ⟨a, b, c, d, e⟩
  cases a <;> cases b <;> cases c <;> cases d <;> cases e <;> rfl

/-- C5 counterexample: a non-empty, non-numeric unique-count field parses
to NaN, not 0, though the descriptor is still returned. -/
theorem numeric_field_nan_counterexample :
    (parseFileInfo ("f1|list.csv|abc|10|10|complete|2024-01-01".data)).map
        (fun i => i.unique) = some JsNum.nan ∧
    JsNum.nan ≠ JsNum.num 0 := by
  exact ⟨by decide, by decide⟩

/-- C5 (amended): with at least 7 pipe-separated fields the parse always
returns a descriptor; an empty numeric field defaults to 0, while a
non-empty unparsable one yields NaN rather than failing the parse. -/
theorem status_parse_numeric_defaults (text : Str)
    (hlen : 7 ≤ (splitOnChar '|' (jsTrim text)).length) :
    (∃ i, parseFileInfo text = some i) ∧
    ((splitOnChar '|' (jsTrim text)).getD 2 [] = [] →
      (parseFileInfo text).map (fun i => i.unique) = some (JsNum.num 0)) ∧
    ((splitOnChar '|' (jsTrim text)).getD 3 [] = [] →
      (parseFileInfo text).map (fun i => i.lines) = some (JsNum.num 0)) ∧
    ((splitOnChar '|' (jsTrim text)).getD 4 [] = [] →
      (parseFileInfo text).map (fun i => i.lines_processed) = some (JsNum.num 0)) := by
  have hno : ¬ (splitOnChar '|' (jsTrim text)).length < 7 := by omega
  refine ⟨⟨_, by simp only [parseFileInfo]; rw [if_neg hno]⟩, ?_, ?_, ?_⟩
  · intro h
    simp only [parseFileInfo]
    rw [if_neg hno]
    show some (jsNumber (jsOrStr ((splitOnChar '|' (jsTrim text)).getD 2 []) ['0'])) =
      some (JsNum.num 0)
    rw [h]
    decide
  · intro h
    simp only [parseFileInfo]
    rw [if_neg hno]
    show some (jsNumber (jsOrStr ((splitOnChar '|' (jsTrim text)).getD 3 []) ['0'])) =
      some (JsNum.num 0)
    rw [h]
    decide
  · intro h
    simp only [parseFileInfo]
    rw [if_neg hno]
    show some (jsNumber (jsOrStr ((splitOnChar '|' (jsTrim text)).getD 4 []) ['0'])) =
      some (JsNum.num 0)
    rw [h]
    decide

theorem status_parse_numeric_defaults_witness :
    (∃ i, parseFileInfo ("f1|list.csv||10|10|ok|t".data) = some i) ∧
    ((splitOnChar '|' (jsTrim ("f1|list.csv||10|10|ok|t".data))).getD 2 [] = [] →
      (parseFileInfo ("f1|list.csv||10|10|ok|t".data)).map (fun i => i.unique) =
        some (JsNum.num 0)) ∧
    ((splitOnChar '|' (jsTrim ("f1|list.csv||10|10|ok|t".data))).getD 3 [] = [] →
      (parseFileInfo ("f1|list.csv||10|10|ok|t".data)).map (fun i => i.lines) =
        some (JsNum.num 0)) ∧
    ((splitOnChar '|' (jsTrim ("f1|list.csv||10|10|ok|t".data))).getD 4 [] = [] →
      (parseFileInfo ("f1|list.csv||10|10|ok|t".data)).map
          (fun i => i.lines_processed) = some (JsNum.num 0)) :=
  status_parse_numeric_defaults ("f1|list.csv||10|10|ok|t".data) (by decide)



/-- C2 counterexample: one result file reporting the same email under a
BAD label and an UNRESOLVED label puts it in both output sets, so the
classified sets are not pairwise disjoint. -/
theorem bucket_overlap_counterexample :
    ("a@x.com".data) ∈
        badSetOf (parseCsvPairs ("invalid_mx,a@x.com\nunknown,a@x.com".data)) ∧
    ("a@x.com".data) ∈
        unkSetOf (parseCsvPairs ("invalid_mx,a@x.com\nunknown,a@x.com".data)) := by
  exact ⟨by decide, by decide⟩

/-- C2 (amended): each classified output set is duplicate-free, and when
each email carries a single category within result file 2, the BAD and
UNRESOLVED sets are disjoint (GOOD comes from the other file, so its
disjointness is not guaranteed by the code). -/
theorem buckets_nodup_and_conditional_disjoint (pairs1 pairs2 : List (Str × Str))
    (hone : ∀ p ∈ pairs2, ∀ q ∈ pairs2, p.2 = q.2 → p.1 = q.1) :
    (goodSetOf pairs1).Nodup ∧ (badSetOf pairs2).Nodup ∧ (unkSetOf pairs2).Nodup ∧
    ∀ e, e ∈ badSetOf pairs2 → e ∉ unkSetOf pairs2 := by
  refine ⟨nodup_jsSetDedup _, nodup_jsSetDedup _, nodup_jsSetDedup _, ?_⟩
  intro e hb hu
  rw [badSetOf, mem_jsSetDedup] at hb
  rw [unkSetOf, mem_jsSetDedup] at hu
  obtain ⟨p, hp, hp2⟩ := List.mem_map.mp hb
  obtain ⟨q, hq, hq2⟩ := List.mem_map.mp hu
  obtain ⟨hpmem, hpbad⟩ := List.mem_filter.mp hp
  obtain ⟨hqmem, hqunk⟩ := List.mem_filter.mp hq
  have hpb : p.1 ∈ badLabels := (contains_iff_mem _ _).mp hpbad
  have hqu : q.1 ∈ unkLabels := (contains_iff_mem _ _).mp hqunk
  have hsame : p.1 = q.1 := hone p hpmem q hqmem (hp2.trans hq2.symm)
  have hdisj : ∀ x ∈ badLabels, x ∉ unkLabels := by decide
  exact hdisj p.1 hpb (hsame ▸ hqu)

theorem buckets_nodup_and_conditional_disjoint_witness :
    ((goodSetOf (parseCsvPairs ("ok,a@x.com".data))).Nodup ∧
     (badSetOf (parseCsvPairs ("invalid_mx,b@x.com\nunknown,c@x.com".data))).Nodup ∧
     (unkSetOf (parseCsvPairs ("invalid_mx,b@x.com\nunknown,c@x.com".data))).Nodup ∧
     ∀ e, e ∈ badSetOf (parseCsvPairs ("invalid_mx,b@x.com\nunknown,c@x.com".data)) →
       e ∉ unkSetOf (parseCsvPairs ("invalid_mx,b@x.com\nunknown,c@x.com".data))) :=
  buckets_nodup_and_conditional_disjoint
    (parseCsvPairs ("ok,a@x.com".data))
    (parseCsvPairs ("invalid_mx,b@x.com\nunknown,c@x.com".data)) (by decide)

/-- C3 counterexample: a pair with the unrecognized label `greylisted` is
dropped from all three buckets by the classification step, not placed in
the UNRESOLVED bucket. -/
theorem other_label_dropped_counterexample :
    (("greylisted".data), ("a@x.com".data)) ∈
        parseCsvPairs ("greylisted,a@x.com".data) ∧
    ("greylisted".data) ≠ ("ok".data) ∧
    ("greylisted".data) ∉ badLabels ∧
    ("greylisted".data) ∉ unkLabels ∧
    ("a@x.com".data) ∉ goodSetOf (parseCsvPairs ("".data)) ∧
    ("a@x.com".data) ∉ badSetOf (parseCsvPairs ("greylisted,a@x.com".data)) ∧
    ("a@x.com".data) ∉ unkSetOf (parseCsvPairs ("greylisted,a@x.com".data)) := by
  refine ⟨by decide, by decide, by decide, by decide, by decide, by decide, by decide⟩

/-- C3 (amended): an email all of whose result-file rows carry labels outside
`ok`, the BAD set and the UNRESOLVED set is excluded from the BAD and
UNRESOLVED buckets; it is never marked good or bad, and if it was
submitted and is not covered by any classified set, the unaccounted
fallback issues `verified_unknown` for it. -/
theorem other_label_excluded_fallback_unknown (pairs2 : List (Str × Str))
    (okE uploaded : List Str) (e : Str)
    (hrows : ∀ p ∈ pairs2, p.2 = e → (p.1 ∉ badLabels ∧ p.1 ∉ unkLabels)) :
    e ∉ badSetOf pairs2 ∧ e ∉ unkSetOf pairs2 ∧
    (e ∈ uploaded → e ∉ knownEmails okE (badSetOf pairs2) (unkSetOf pairs2) →
      e ∈ remainingUnknown uploaded okE (badSetOf pairs2) (unkSetOf pairs2) ∧
      (remainingUnknown uploaded okE (badSetOf pairs2) (unkSetOf pairs2),
        VStatus.verified_unknown) ∈
        reconcileInstructions okE (badSetOf pairs2) (unkSetOf pairs2) uploaded) := by
  have hnb : e ∉ badSetOf pairs2 := by
    intro hb
    rw [badSetOf, mem_jsSetDedup] at hb
    obtain ⟨p, hp, hp2⟩ := List.mem_map.mp hb
    obtain ⟨hpmem, hpbad⟩ := List.mem_filter.mp hp
    exact (hrows p hpmem hp2).1 ((contains_iff_mem _ _).mp hpbad)
  have hnu : e ∉ unkSetOf pairs2 := by
    intro hu
    rw [unkSetOf, mem_jsSetDedup] at hu
    obtain ⟨q, hq, hq2⟩ := List.mem_map.mp hu
    obtain ⟨hqmem, hqunk⟩ := List.mem_filter.mp hq
    exact (hrows q hqmem hq2).2 ((contains_iff_mem _ _).mp hqunk)
  refine ⟨hnb, hnu, fun he hk => ?_⟩
  have h := reconcileInstructions_spec okE (badSetOf pairs2) (unkSetOf pairs2)
    uploaded e he
  exact ⟨(h.2.2.2.1 hk).2, (h.2.2.2.1 hk).1⟩

theorem other_label_excluded_fallback_unknown_witness :
    ("a@x.com".data) ∉ badSetOf (parseCsvPairs ("greylisted,a@x.com".data)) ∧
    ("a@x.com".data) ∉ unkSetOf (parseCsvPairs ("greylisted,a@x.com".data)) ∧
    (("a@x.com".data) ∈ [("a@x.com".data)] →
      ("a@x.com".data) ∉ knownEmails []
        (badSetOf (parseCsvPairs ("greylisted,a@x.com".data)))
        (unkSetOf (parseCsvPairs ("greylisted,a@x.com".data))) →
      ("a@x.com".data) ∈ remainingUnknown [("a@x.com".data)] []
        (badSetOf (parseCsvPairs ("greylisted,a@x.com".data)))
        (unkSetOf (parseCsvPairs ("greylisted,a@x.com".data))) ∧
      (remainingUnknown [("a@x.com".data)] []
        (badSetOf (parseCsvPairs ("greylisted,a@x.com".data)))
        (unkSetOf (parseCsvPairs ("greylisted,a@x.com".data))),
        VStatus.verified_unknown) ∈
        reconcileInstructions []
          (badSetOf (parseCsvPairs ("greylisted,a@x.com".data)))
          (unkSetOf (parseCsvPairs ("greylisted,a@x.com".data)))
          [("a@x.com".data)]) :=
  other_label_excluded_fallback_unknown
    (parseCsvPairs ("greylisted,a@x.com".data)) [] [("a@x.com".data)]
    ("a@x.com".data) (by decide)



/-- Interpretation of an issued instruction list against a lead store,
with the email index built once from that store (index.ts lines 176-221). -/
def applyInstructions (now : Nat) (store : List Lead)
    (instrs : List (List Str × VStatus)) : List Lead :=
  instrs.foldl (fun s p => updateLeadsByEmail (emailIdx store) p.1 p.2 now s) store

/-- C6: a batch is judged complete exactly when the lowercased status text
contains `complete`, `finish` or `ready` as a substring; any other status
leaves the tick at the progress snapshot, with no lead instruction issued
and `processed` not set. -/
theorem complete_iff_substring_and_pending_frame (b : BatchInput) (i : FileInfo)
    (hinfo : infoOf b = some i) :
    (isComplete i.status = true ↔
      ((∃ pre post, jsToLower i.status = pre ++ ("complete".data) ++ post) ∨
       (∃ pre post, jsToLower i.status = pre ++ ("finish".data) ++ post) ∨
       (∃ pre post, jsToLower i.status = pre ++ ("ready".data) ++ post))) ∧
    (isComplete i.status = false →
      processOne b =
        { checkedAtSet := true, snapshot := some (snapOf i),
          leadInstructions := [], processedSet := false }) := by
  constructor
  · simp only [isComplete, jsOrStr_nil, Bool.or_eq_true, hasSub_iff]
    exact or_assoc
  · intro hnc
    simp [processOne, hinfo, hnc]

/-- Scenario C of the spec: status text `in_progress`. -/
def scenarioC : BatchInput :=
  { pollResponse := some ("f1|list.csv|10|10|7|in_progress|2024-01-01".data)
    emails := []
    net := fun _ => none }

/-- The descriptor scenario C's status line parses to. -/
def scenarioCInfo : FileInfo :=
  { file_id := ("f1".data), filename := ("list.csv".data),
    unique := JsNum.num 10, lines := JsNum.num 10,
    lines_processed := JsNum.num 7,
    status := ("in_progress".data), timestamp := ("2024-01-01".data),
    link1 := none, link2 := none }

theorem complete_iff_substring_and_pending_frame_witness :
    processOne scenarioC =
      { checkedAtSet := true, snapshot := some (snapOf scenarioCInfo),
        leadInstructions := [], processedSet := false } :=
  (complete_iff_substring_and_pending_frame scenarioC scenarioCInfo (by decide)).2
    (by decide)

/-- C9: a failed or malformed status poll touches only `checked_at`: no
snapshot is written, no lead instruction is issued, `processed` stays
false, and the driver still yields an effect for every other batch of the
tick. -/
theorem poll_failure_touches_only_checked_at (batches : List BatchInput) (k : Nat)
    (hfail : (batches[k]?).map infoOf = some none) :
    (runTick batches).length = batches.length ∧
    (runTick batches)[k]? = some pendingNoInfo ∧
    (∀ j : Nat, (runTick batches)[j]? = (batches[j]?).map processOne) ∧
    pendingNoInfo.snapshot = none ∧
    pendingNoInfo.leadInstructions = [] ∧
    pendingNoInfo.processedSet = false ∧
    pendingNoInfo.checkedAtSet = true ∧
    (∀ now store, applyInstructions now store pendingNoInfo.leadInstructions = store) := by
  have hmap : ∀ j : Nat, (runTick batches)[j]? = (batches[j]?).map processOne := by
    intro j
    simp [runTick, List.getElem?_map]
  refine ⟨by simp [runTick], ?_, hmap, rfl, rfl, rfl, rfl, fun now store => rfl⟩
  cases hb : batches[k]? with
  | none => rw [hb] at hfail; cases hfail
  | some b =>
    rw [hb] at hfail
    have hnone : infoOf b = none := by simpa using hfail
    rw [hmap k, hb]
    simp [processOne, hnone]

/-- Scenario D of the spec: the status poll yields no usable descriptor
(here: a malformed one-field response body). -/
def scenarioD : BatchInput :=
  { pollResponse := some ("bad response".data)
    emails := []
    net := fun _ => none }

theorem poll_failure_touches_only_checked_at_witness :
    (runTick [scenarioD, scenarioC]).length = ([scenarioD, scenarioC] : List BatchInput).length ∧
    (runTick [scenarioD, scenarioC])[0]? = some pendingNoInfo :=
  (fun h => ⟨h.1, h.2.1⟩)
    (poll_failure_touches_only_checked_at [scenarioD, scenarioC] 0 (by decide))

/-- C10: the GOOD set keeps exactly the `ok`-labelled pairs of result
file 1, while the BAD and UNRESOLVED sets keep exactly the pairs of
result file 2 whose label is in the corresponding fixed set; hence an
`ok` row in file 2 never feeds GOOD, and a BAD- or UNRESOLVED-labelled
row in file 1 never feeds BAD or UNRESOLVED. -/
theorem buckets_sourced_per_file (b : BatchInput) (i : FileInfo) (e : Str) :
    (e ∈ bucketsGood b i ↔
      ∃ p ∈ downloadedPairs b.net i.link1, p.1 = ("ok".data) ∧ p.2 = e) ∧
    (e ∈ bucketsBad b i ↔
      ∃ p ∈ downloadedPairs b.net i.link2, p.1 ∈ badLabels ∧ p.2 = e) ∧
    (e ∈ bucketsUnk b i ↔
      ∃ p ∈ downloadedPairs b.net i.link2, p.1 ∈ unkLabels ∧ p.2 = e) := by
  refine ⟨?_, ?_, ?_⟩
  · rw [bucketsGood, goodSetOf, mem_jsSetDedup]
    simp only [List.mem_map, List.mem_filter, beq_iff_eq]
    constructor
    · rintro ⟨p, ⟨hp, hok⟩, hp2⟩; exact ⟨p, hp, hok, hp2⟩
    · rintro ⟨p, hp, hok, hp2⟩; exact ⟨p, ⟨hp, hok⟩, hp2⟩
  · rw [bucketsBad, badSetOf, mem_jsSetDedup]
    simp only [List.mem_map, List.mem_filter]
    constructor
    · rintro ⟨p, ⟨hp, hbl⟩, hp2⟩
      exact ⟨p, hp, (contains_iff_mem _ _).mp hbl, hp2⟩
    · rintro ⟨p, hp, hbl, hp2⟩
      exact ⟨p, ⟨hp, (contains_iff_mem _ _).mpr hbl⟩, hp2⟩
  · rw [bucketsUnk, unkSetOf, mem_jsSetDedup]
    simp only [List.mem_map, List.mem_filter]
    constructor
    · rintro ⟨p, ⟨hp, hbl⟩, hp2⟩
      exact ⟨p, hp, (contains_iff_mem _ _).mp hbl, hp2⟩
    · rintro ⟨p, hp, hbl, hp2⟩
      exact ⟨p, ⟨hp, (contains_iff_mem _ _).mpr hbl⟩, hp2⟩



theorem firstComma_unique (l pre post pre' post' : Str)
    (h : l = pre ++ ',' :: post) (hp : ',' ∉ pre)
    (h' : l = pre' ++ ',' :: post') (hp' : ',' ∉ pre') :
    pre = pre' ∧ post = post' := by
  have h1 := (splitFirst_eq_some_iff ',' l pre post).mpr ⟨h, hp⟩
  have h2 := (splitFirst_eq_some_iff ',' l pre' post').mpr ⟨h', hp'⟩
  rw [h1] at h2
  have h3 := Option.some.inj h2
  exact ⟨congrArg Prod.fst h3, congrArg Prod.snd h3⟩

theorem csvLinePair_eq_some_iff (line c e : Str) :
    csvLinePair line = some (c, e) ↔
      ∃ pre post, jsTrim line = pre ++ ',' :: post ∧ ',' ∉ pre ∧
        c = jsToLower (jsTrim pre) ∧ e = jsToLower (jsTrim post) ∧
        '@' ∈ e ∧ jsTrim line ≠ [] ∧
        jsStartsWith (jsToLower (jsTrim line)) ("elv result".data) = false := by
  by_cases h1 : (jsTrim line).isEmpty = true
  · have hl := List.isEmpty_iff.mp h1
    have hstep : csvLinePair line = none := by
      simp only [csvLinePair]
      rw [if_pos h1]
    rw [hstep]
    constructor
    · intro h; cases h
    · rintro ⟨pre, post, hdec, -, -, -, -, hne, -⟩
      exact absurd hl hne
  · by_cases h2 : jsStartsWith (jsToLower (jsTrim line)) ("elv result".data) = true
    · have hstep : csvLinePair line = none := by
        simp only [csvLinePair]
        rw [if_neg h1, if_pos h2]
      rw [hstep]
      constructor
      · intro h; cases h
      · rintro ⟨-, -, -, -, -, -, -, -, hhdr⟩
        rw [h2] at hhdr
        cases hhdr
    · have hhdrf : jsStartsWith (jsToLower (jsTrim line)) ("elv result".data) = false := by
        cases hjs : jsStartsWith (jsToLower (jsTrim line)) ("elv result".data) with
        | false => rfl
        | true => exact absurd hjs h2
      have hnef : jsTrim line ≠ [] := fun hh => h1 (List.isEmpty_iff.mpr hh)
      cases hsp : splitFirst ',' (jsTrim line) with
      | none =>
        have hnc : ',' ∉ jsTrim line := (splitFirst_eq_none_iff ',' _).mp hsp
        have hstep : csvLinePair line = none := by
          simp only [csvLinePair]
          rw [if_neg h1, if_neg h2, hsp]
        rw [hstep]
        constructor
        · intro h; cases h
        · rintro ⟨pre, post, hdec, -, -⟩
          exact (hnc (hdec ▸ List.mem_append.mpr (Or.inr (List.mem_cons_self _ _)))).elim
      | some pq =>
        obtain ⟨pre₀, post₀⟩ := pq
        obtain ⟨hdec₀, hpre₀⟩ := (splitFirst_eq_some_iff ',' (jsTrim line) pre₀ post₀).mp hsp
        by_cases h3 : (jsToLower (jsTrim post₀)).contains '@' = true
        · have hstep : csvLinePair line =
              some (jsToLower (jsTrim pre₀), jsToLower (jsTrim post₀)) := by
            simp only [csvLinePair]
            rw [if_neg h1, if_neg h2, hsp]
            simp only [h3, if_true]
          rw [hstep]
          constructor
          · intro h
            have h4 := Prod.ext_iff.mp (Option.some.inj h)
            have hc' : jsToLower (jsTrim pre₀) = c := by simpa using h4.1
            have he' : jsToLower (jsTrim post₀) = e := by simpa using h4.2
            refine ⟨pre₀, post₀, hdec₀, hpre₀, hc'.symm, he'.symm, ?_, hnef, hhdrf⟩
            rw [← he']
            simpa [List.contains] using h3
          · rintro ⟨pre, post, hdec, hpre, hc, he, hat, -, -⟩
            obtain ⟨hpe, hpo⟩ :=
              firstComma_unique (jsTrim line) pre₀ post₀ pre post hdec₀ hpre₀ hdec hpre
            rw [hc, he, hpe, hpo]
        · have hstep : csvLinePair line = none := by
            simp only [csvLinePair]
            rw [if_neg h1, if_neg h2, hsp]
            simp only [h3]
            rfl
          rw [hstep]
          constructor
          · intro h; cases h
          · rintro ⟨pre, post, hdec, hpre, hc, he, hat, -, -⟩
            obtain ⟨hpe, hpo⟩ :=
              firstComma_unique (jsTrim line) pre₀ post₀ pre post hdec₀ hpre₀ hdec hpre
            refine absurd ?_ h3
            rw [hpo]
            rw [he] at hat
            simpa [List.contains] using hat



theorem csvLinePair_eq_none_iff (line : Str) :
    csvLinePair line = none ↔
      (jsTrim line = [] ∨
       jsStartsWith (jsToLower (jsTrim line)) ("elv result".data) = true ∨
       ',' ∉ jsTrim line ∨
       ∃ pre post, jsTrim line = pre ++ ',' :: post ∧ ',' ∉ pre ∧
         '@' ∉ jsToLower (jsTrim post)) := by
  by_cases h1 : (jsTrim line).isEmpty = true
  · have hl := List.isEmpty_iff.mp h1
    have hstep : csvLinePair line = none := by
      simp only [csvLinePair]; rw [if_pos h1]
    simp [hstep, hl]
  · have hl : jsTrim line ≠ [] := fun hh => h1 (List.isEmpty_iff.mpr hh)
    by_cases h2 : jsStartsWith (jsToLower (jsTrim line)) ("elv result".data) = true
    · have hstep : csvLinePair line = none := by
        simp only [csvLinePair]; rw [if_neg h1, if_pos h2]
      simp [hstep, h2]
    · cases hsp : splitFirst ',' (jsTrim line) with
      | none =>
        have hnc := (splitFirst_eq_none_iff ',' _).mp hsp
        have hstep : csvLinePair line = none := by
          simp only [csvLinePair]; rw [if_neg h1, if_neg h2, hsp]
        simp [hstep, hnc]
      | some pq =>
        obtain ⟨pre₀, post₀⟩ := pq
        obtain ⟨hdec₀, hpre₀⟩ :=
          (splitFirst_eq_some_iff ',' (jsTrim line) pre₀ post₀).mp hsp
        have hcm : ',' ∈ jsTrim line :=
          hdec₀ ▸ List.mem_append.mpr (Or.inr (List.mem_cons_self _ _))
        by_cases h3 : (jsToLower (jsTrim post₀)).contains '@' = true
        · have hstep : csvLinePair line =
              some (jsToLower (jsTrim pre₀), jsToLower (jsTrim post₀)) := by
            simp only [csvLinePair]
            rw [if_neg h1, if_neg h2, hsp]
            simp only [h3, if_true]
          rw [hstep]
          constructor
          · intro h; cases h
          · rintro (hE | hH | hC | ⟨pre, post, hdec, hpre, hat⟩)
            · exact absurd hE hl
            · exact absurd hH h2
            · exact absurd hcm hC
            · obtain ⟨hpe, hpo⟩ := firstComma_unique (jsTrim line) pre₀ post₀
                pre post hdec₀ hpre₀ hdec hpre
              refine absurd ?_ hat
              rw [← hpo]
              simpa [List.contains] using h3
        · have hstep : csvLinePair line = none := by
            simp only [csvLinePair]
            rw [if_neg h1, if_neg h2, hsp]
            simp only [h3]
            rfl
          rw [hstep]
          exact iff_of_true rfl (Or.inr (Or.inr (Or.inr ⟨pre₀, post₀, hdec₀, hpre₀,
            fun hm => h3 (by simpa [List.contains] using hm)⟩)))

/-- C7: the pair parser maps each physical line through `csvLinePair`;
the header test is a case-insensitive prefix match; the comma test is
first-comma splitting; a line is kept exactly when it decomposes at its
first comma into a lowercased trimmed category and a lowercased trimmed
email containing `@`, is non-empty after trimming and is not a header
row; it is discarded exactly in the four claimed cases.  `csvLinePair` is
total, so no line can abort the parse. -/
theorem csv_pair_parser_classification (body line c e : Str) :
    (parseCsvPairs body = (splitLines body).filterMap csvLinePair) ∧
    (jsStartsWith (jsToLower (jsTrim line)) ("elv result".data) = true ↔
      ∃ rest, jsToLower (jsTrim line) = ("elv result".data) ++ rest) ∧
    (splitFirst ',' (jsTrim line) = none ↔ ',' ∉ jsTrim line) ∧
    (csvLinePair line = some (c, e) ↔
      ∃ pre post, jsTrim line = pre ++ ',' :: post ∧ ',' ∉ pre ∧
        c = jsToLower (jsTrim pre) ∧ e = jsToLower (jsTrim post) ∧
        '@' ∈ e ∧ jsTrim line ≠ [] ∧
        jsStartsWith (jsToLower (jsTrim line)) ("elv result".data) = false) ∧
    (csvLinePair line = none ↔
      (jsTrim line = [] ∨
       jsStartsWith (jsToLower (jsTrim line)) ("elv result".data) = true ∨
       ',' ∉ jsTrim line ∨
       ∃ pre post, jsTrim line = pre ++ ',' :: post ∧ ',' ∉ pre ∧
         '@' ∉ jsToLower (jsTrim post))) :=
  ⟨rfl, jsStartsWith_iff _ _, splitFirst_eq_none_iff _ _,
    csvLinePair_eq_some_iff _ _ _, csvLinePair_eq_none_iff _⟩

/-- C8: re-applying the reconciliation's update instructions with the same
classified sets and upload list changes no lead's id, email or
verification status (only the checked-at timestamp moves), and re-running
the completion write leaves `processed = true` stable. -/
theorem reconcile_updates_idempotent (store : List Lead)
    (okE badE unkE upl : List Str) (t₁ t₂ : Nat) :
    ((reconcileApply okE badE unkE upl t₂
        (reconcileApply okE badE unkE upl t₁ store)).map
          (fun l => (l.id, l.email, l.vstatus)) =
      (reconcileApply okE badE unkE upl t₁ store).map
        (fun l => (l.id, l.email, l.vstatus))) ∧
    (∀ p : Bool, markProcessed (markProcessed p) = markProcessed p) :=
  ⟨reconcile_idempotent_core store okE badE unkE upl t₁ t₂, fun _ => rfl⟩

end VerifWorker
